import Mathlib

/-!
Verification of a PSP22 fungible-token ledger and its contract shell.

The repository consists of an ink! contract shell (`lib.rs`, module `token`)
that wraps a chain-agnostic ledger core `PSP22Data` (declared in the missing
`data.rs` module).  The shell (`Token`) is embedded directly from `lib.rs`;
the ledger core, its error type and its event type are modelled from the
specification, which describes their exact operation-by-operation behaviour.

Account identifiers are modelled as `Nat` (the spec treats them as opaque
comparable values).  Amounts are 128-bit unsigned integers, modelled as `Nat`
together with checked arithmetic against the u128 maximum.
-/

/-- The largest representable u128 amount. -/
def U128_MAX : Nat := 2 ^ 128 - 1

/-- Modelled from the spec: checked u128 addition; `none` signals overflow
beyond the amount range ("fails with Overflow if either addition would exceed
the amount type's range"). -/
def checked_add (a b : Nat) : Option Nat :=
  if a + b ≤ U128_MAX then some (a + b) else none

/-- Modelled from the spec (errors.rs is not in src): the exhaustive error
taxonomy of section 7 — InsufficientBalance, InsufficientAllowance, Overflow,
and Custom for adapter-level errors such as authorization failures. -/
inductive PSP22Error where
  | InsufficientBalance : PSP22Error
  | InsufficientAllowance : PSP22Error
  | Overflow : PSP22Error
  | Custom : String → PSP22Error
deriving DecidableEq

/-- Modelled from the spec (data.rs is not in src): a change notification,
either Transfer (with optional endpoints: `none` source = mint, `none`
destination = burn) or Approval. -/
inductive PSP22Event where
  | Transfer : Option Nat → Option Nat → Nat → PSP22Event
  | Approval : Nat → Nat → Nat → PSP22Event
deriving DecidableEq

/-- Modelled from the spec (data.rs is not in src): the ledger state — a
sparse balances mapping (absence = 0, modelled as a total function),
a sparse allowances mapping keyed by (owner, spender), and the running
total-supply counter. -/
structure PSP22Data where
  balances : Nat → Nat
  allowances : Nat → Nat → Nat
  total_supply : Nat

/-- The empty ledger: zero total supply, no entries. -/
def PSP22Data.empty : PSP22Data :=
  { balances := fun _ => 0, allowances := fun _ _ => 0, total_supply := 0 }

/-- Query: balance of an account, 0 when absent. -/
def PSP22Data.balance_of (s : PSP22Data) (a : Nat) : Nat :=
  s.balances a

/-- Query: allowance of (owner, spender), 0 when absent. -/
def PSP22Data.allowance (s : PSP22Data) (owner spender : Nat) : Nat :=
  s.allowances owner spender

/-- Point update of the allowances mapping. -/
def setAllowance (f : Nat → Nat → Nat) (owner spender v : Nat) : Nat → Nat → Nat :=
  fun o p => if o = owner ∧ p = spender then v else f o p

/-- The atomic two-account balance movement shared by transfer and
transfer-from: debit `frm` by `v`, then credit `dst` by `v`.  A self-move
(`frm = dst`) is a net no-op on the mapping. -/
def moveBalance (b : Nat → Nat) (frm dst v : Nat) : Nat → Nat :=
  let b1 := Function.update b frm (b frm - v)
  Function.update b1 dst (b1 dst + v)

/-- Modelled from the spec: mint(dst, value) — increases `balance_of dst` and
the total supply by `value` using checked addition on both, failing with
Overflow (state untouched) when either sum leaves the u128 range.  On success
the single Transfer-from-nothing notification is returned, suppressed when
`value = 0`. -/
def PSP22Data.mint (s : PSP22Data) (dst v : Nat) :
    Except PSP22Error (PSP22Data × List PSP22Event) :=
  match checked_add (s.balances dst) v, checked_add s.total_supply v with
  | some nb, some nt =>
      .ok ({ s with
               balances := Function.update s.balances dst nb
               total_supply := nt },
           if v = 0 then [] else [.Transfer none (some dst) v])
  | _, _ => .error .Overflow

/-- Modelled from the spec: burn(from, value) — fails with
InsufficientBalance when `balance_of frm < value` (checked subtraction),
otherwise decreases both the balance and the total supply by `value`.  The
Transfer-to-nothing notification is suppressed when `value = 0`. -/
def PSP22Data.burn (s : PSP22Data) (frm v : Nat) :
    Except PSP22Error (PSP22Data × List PSP22Event) :=
  if s.balances frm < v then .error .InsufficientBalance
  else
    .ok ({ s with
             balances := Function.update s.balances frm (s.balances frm - v)
             total_supply := s.total_supply - v },
         if v = 0 then [] else [.Transfer (some frm) none v])

/-- Modelled from the spec: transfer(caller, dst, value) — moves `value` from
the caller's balance into `dst`'s balance atomically; fails with
InsufficientBalance when `balance_of caller < value` (also for
self-transfer).  The notification is suppressed when `value = 0`. -/
def PSP22Data.transfer (s : PSP22Data) (caller dst v : Nat) :
    Except PSP22Error (PSP22Data × List PSP22Event) :=
  if s.balances caller < v then .error .InsufficientBalance
  else
    .ok ({ s with balances := moveBalance s.balances caller dst v },
         if v = 0 then [] else [.Transfer (some caller) (some dst) v])

/-- Modelled from the spec: transfer_from(caller, from, dst, value) — consumes
`value` from the allowance (from, caller) and moves `value` from `frm` into
`dst`; fails with InsufficientAllowance or InsufficientBalance with no state
change, the allowance rule applied uniformly (no bypass when `frm = caller`).
On success returns, in order, the Approval reflecting the new allowance and
the Transfer. -/
def PSP22Data.transfer_from (s : PSP22Data) (caller frm dst v : Nat) :
    Except PSP22Error (PSP22Data × List PSP22Event) :=
  if s.allowances frm caller < v then .error .InsufficientAllowance
  else if s.balances frm < v then .error .InsufficientBalance
  else
    .ok ({ s with
             balances := moveBalance s.balances frm dst v
             allowances := setAllowance s.allowances frm caller (s.allowances frm caller - v) },
         [.Approval frm caller (s.allowances frm caller - v),
          .Transfer (some frm) (some dst) v])

/-- Modelled from the spec: approve(caller, spender, value) — absolute set of
the allowance; always succeeds and returns the Approval notification. -/
def PSP22Data.approve (s : PSP22Data) (caller spender v : Nat) :
    Except PSP22Error (PSP22Data × List PSP22Event) :=
  .ok ({ s with allowances := setAllowance s.allowances caller spender v },
       [.Approval caller spender v])

/-- Modelled from the spec: increase_allowance(caller, spender, delta) —
adds `delta` onto the current allowance with checked addition, failing with
Overflow (allowance unchanged) when the sum leaves the u128 range. -/
def PSP22Data.increase_allowance (s : PSP22Data) (caller spender d : Nat) :
    Except PSP22Error (PSP22Data × List PSP22Event) :=
  match checked_add (s.allowances caller spender) d with
  | some n =>
      .ok ({ s with allowances := setAllowance s.allowances caller spender n },
           [.Approval caller spender n])
  | none => .error .Overflow

/-- Modelled from the spec: decrease_allowance(caller, spender, delta) —
subtracts `delta` with checked subtraction, failing with
InsufficientAllowance (allowance unchanged) when `delta` exceeds the current
allowance. -/
def PSP22Data.decrease_allowance (s : PSP22Data) (caller spender d : Nat) :
    Except PSP22Error (PSP22Data × List PSP22Event) :=
  if s.allowances caller spender < d then .error .InsufficientAllowance
  else
    .ok ({ s with allowances :=
             setAllowance s.allowances caller spender (s.allowances caller spender - d) },
         [.Approval caller spender (s.allowances caller spender - d)])

/-- A ledger operation together with its arguments, for reasoning about
sequences of calls. -/
inductive Op where
  | mint : Nat → Nat → Op
  | burn : Nat → Nat → Op
  | transfer : Nat → Nat → Nat → Op
  | transfer_from : Nat → Nat → Nat → Nat → Op
  | approve : Nat → Nat → Nat → Op
  | increase_allowance : Nat → Nat → Nat → Op
  | decrease_allowance : Nat → Nat → Nat → Op

/-- Dispatch one operation on the ledger. -/
def stepOp (s : PSP22Data) : Op → Except PSP22Error (PSP22Data × List PSP22Event)
  | .mint dst v => s.mint dst v
  | .burn frm v => s.burn frm v
  | .transfer c dst v => s.transfer c dst v
  | .transfer_from c frm dst v => s.transfer_from c frm dst v
  | .approve c p v => s.approve c p v
  | .increase_allowance c p v => s.increase_allowance c p v
  | .decrease_allowance c p v => s.decrease_allowance c p v

/-- The state after one operation: the new state on success, the old state
on failure (a failing operation is a strict no-op). -/
def applyOp (s : PSP22Data) (op : Op) : PSP22Data :=
  match stepOp s op with
  | .ok (s2, _) => s2
  | .error _ => s

/-- The notifications produced by one operation: those returned on success,
none on failure. -/
def eventsOfOp (s : PSP22Data) (op : Op) : List PSP22Event :=
  match stepOp s op with
  | .ok (_, ev) => ev
  | .error _ => []

/-- Run a sequence of operations from a starting state, keeping the old
state whenever an operation fails. -/
def runOpsFrom (s : PSP22Data) (ops : List Op) : PSP22Data :=
  ops.foldl applyOp s

/-- Run a sequence of operations from the empty ledger. -/
def runOps (ops : List Op) : PSP22Data :=
  runOpsFrom PSP22Data.empty ops

/-- The accounts appearing in one operation's arguments. -/
def opAccounts : Op → Finset Nat
  | .mint dst _ => {dst}
  | .burn frm _ => {frm}
  | .transfer c dst _ => {c, dst}
  | .transfer_from c frm dst _ => {c, frm, dst}
  | .approve c p _ => {c, p}
  | .increase_allowance c p _ => {c, p}
  | .decrease_allowance c p _ => {c, p}

/-- All accounts that ever appeared in a sequence of operations. -/
def appearedAccounts (ops : List Op) : Finset Nat :=
  ops.foldr (fun op acc => opAccounts op ∪ acc) ∅

/-- The contract storage of the ink! shell (src/lib.rs, `struct Token`):
the ledger core plus metadata and the privileged `bond` account fixed at
construction. -/
structure Token where
  data : PSP22Data
  name : Option String
  symbol : Option String
  bond : Nat
  decimals : Nat

/-- The constructor `Token::new` (src/lib.rs): empty ledger, caller-supplied
name, symbol and bond account, decimals fixed at 12. -/
def Token.new (name symbol : Option String) (bond : Nat) : Token :=
  { data := PSP22Data.empty
    name := name
    symbol := symbol
    bond := bond
    decimals := 12 }

/-- `Token::emit_events` (src/lib.rs): forwards each notification of the list,
in order, to the host event log, mapping `PSP22Event::Transfer`/`Approval` to
the homonymous ink! events with identical fields.  The emitted log entries are
modelled as the notification list itself. -/
def Token.emit_events (events : List PSP22Event) : List PSP22Event :=
  events

/-- `Token::only_bond` (src/lib.rs): rejects any caller other than the bond
account with `Custom("Not Permission")`. -/
def Token.only_bond (t : Token) (caller : Nat) : Except PSP22Error Unit :=
  if caller ≠ t.bond then .error (.Custom "Not Permission") else .ok ()

/-- `Token::mint` (src/lib.rs): gated by `only_bond`; the notifications
returned by the ledger core are discarded (the `?`-propagated result is
dropped and no `emit_events` call is made), so the emitted list is empty. -/
def Token.mint (t : Token) (caller dst v : Nat) :
    Except PSP22Error (Token × List PSP22Event) :=
  match t.only_bond caller with
  | .error e => .error e
  | .ok _ =>
    match t.data.mint dst v with
    | .error e => .error e
    | .ok (d, _) => .ok ({ t with data := d }, [])

/-- `Token::burn` (src/lib.rs): gated by `only_bond`; core notifications are
discarded and nothing is emitted. -/
def Token.burn (t : Token) (caller frm v : Nat) :
    Except PSP22Error (Token × List PSP22Event) :=
  match t.only_bond caller with
  | .error e => .error e
  | .ok _ =>
    match t.data.burn frm v with
    | .error e => .error e
    | .ok (d, _) => .ok ({ t with data := d }, [])

/-- `PSP22::transfer` for `Token` (src/lib.rs): runs the core transfer with
the environment caller and emits every returned notification in order; the
trailing byte-vector argument is ignored. -/
def Token.transfer (t : Token) (caller dst v : Nat) (_dat : List Nat) :
    Except PSP22Error (Token × List PSP22Event) :=
  match t.data.transfer caller dst v with
  | .error e => .error e
  | .ok (d, events) => .ok ({ t with data := d }, Token.emit_events events)

/-- `PSP22::transfer_from` for `Token` (src/lib.rs): runs the core
transfer-from with the environment caller and emits every returned
notification in order; the trailing byte-vector argument is ignored. -/
def Token.transfer_from (t : Token) (caller frm dst v : Nat) (_dat : List Nat) :
    Except PSP22Error (Token × List PSP22Event) :=
  match t.data.transfer_from caller frm dst v with
  | .error e => .error e
  | .ok (d, events) => .ok ({ t with data := d }, Token.emit_events events)

/-- `PSP22::approve` for `Token` (src/lib.rs). -/
def Token.approve (t : Token) (caller spender v : Nat) :
    Except PSP22Error (Token × List PSP22Event) :=
  match t.data.approve caller spender v with
  | .error e => .error e
  | .ok (d, events) => .ok ({ t with data := d }, Token.emit_events events)

/-- `PSP22::increase_allowance` for `Token` (src/lib.rs). -/
def Token.increase_allowance (t : Token) (caller spender d2 : Nat) :
    Except PSP22Error (Token × List PSP22Event) :=
  match t.data.increase_allowance caller spender d2 with
  | .error e => .error e
  | .ok (d, events) => .ok ({ t with data := d }, Token.emit_events events)

/-- `PSP22::decrease_allowance` for `Token` (src/lib.rs). -/
def Token.decrease_allowance (t : Token) (caller spender d2 : Nat) :
    Except PSP22Error (Token × List PSP22Event) :=
  match t.data.decrease_allowance caller spender d2 with
  | .error e => .error e
  | .ok (d, events) => .ok ({ t with data := d }, Token.emit_events events)

/-- The token state after a call: the new state on success, the old state on
failure (the ink! message reverts on error). -/
def Token.applyCall (t : Token) (r : Except PSP22Error (Token × List PSP22Event)) : Token :=
  match r with
  | .ok (t2, _) => t2
  | .error _ => t

/-- A ledger state with ten units minted onto account 1, for exercising the
transfer claims on a concrete input. -/
def mintedState : PSP22Data := applyOp PSP22Data.empty (.mint 1 10)

/-- A ledger state whose allowance (0, 1) sits at the u128 maximum, reached
from the empty ledger by a single approve call. -/
def maxAllowanceState : PSP22Data :=
  applyOp PSP22Data.empty (.approve 0 1 U128_MAX)

/-- Invariant tying the counter to the mapping: the total supply equals the
sum of the balances over a finite account set outside of which every balance
is zero. -/
def BalancesInv (s : PSP22Data) (S : Finset Nat) : Prop :=
  s.total_supply = Finset.sum S s.balances ∧ ∀ a, a ∉ S → s.balances a = 0

/-! Helper lemmas: equation forms of the checked-arithmetic operations and
pointwise / summation facts about the balance-movement function. -/

theorem checked_add_eq (a b : Nat) :
    checked_add a b = if a + b ≤ U128_MAX then some (a + b) else none := rfl

theorem mint_eq (s : PSP22Data) (dst v : Nat) :
    s.mint dst v =
      if s.balances dst + v ≤ U128_MAX ∧ s.total_supply + v ≤ U128_MAX then
        .ok ({ s with
                 balances := Function.update s.balances dst (s.balances dst + v)
                 total_supply := s.total_supply + v },
             if v = 0 then [] else [.Transfer none (some dst) v])
      else .error .Overflow := by
  unfold PSP22Data.mint checked_add
  by_cases h1 : s.balances dst + v ≤ U128_MAX <;>
    by_cases h2 : s.total_supply + v ≤ U128_MAX <;>
      simp [h1, h2]

theorem increase_allowance_eq (s : PSP22Data) (caller spender d : Nat) :
    s.increase_allowance caller spender d =
      if s.allowances caller spender + d ≤ U128_MAX then
        .ok ({ s with
                 allowances := setAllowance s.allowances caller spender
                   (s.allowances caller spender + d) },
             [.Approval caller spender (s.allowances caller spender + d)])
      else .error .Overflow := by
  unfold PSP22Data.increase_allowance checked_add
  by_cases h : s.allowances caller spender + d ≤ U128_MAX <;> simp [h]

theorem decrease_allowance_ok (s : PSP22Data) (c p d x : Nat)
    (hx : s.allowances c p = x) (h : d ≤ x) :
    s.decrease_allowance c p d
      = .ok ({ s with allowances := setAllowance s.allowances c p (x - d) },
             [.Approval c p (x - d)]) := by
  unfold PSP22Data.decrease_allowance
  rw [hx, if_neg (Nat.not_lt.mpr h)]

theorem setAllowance_same (f : Nat → Nat → Nat) (o p v : Nat) :
    setAllowance f o p v o p = v := by
  simp [setAllowance]

theorem setAllowance_other (f : Nat → Nat → Nat) (o p v o2 p2 : Nat)
    (h : ¬(o2 = o ∧ p2 = p)) : setAllowance f o p v o2 p2 = f o2 p2 := by
  simp only [setAllowance, if_neg h]

theorem moveBalance_self (b : Nat → Nat) (frm v : Nat) (h : v ≤ b frm) :
    moveBalance b frm frm v = b := by
  unfold moveBalance
  simp [Function.update_same, Function.update_idem, Nat.sub_add_cancel h,
    Function.update_eq_self]

theorem moveBalance_src (b : Nat → Nat) (frm dst v : Nat) (h : frm ≠ dst) :
    moveBalance b frm dst v frm = b frm - v := by
  unfold moveBalance
  simp [Function.update_noteq h, Function.update_same]

theorem moveBalance_dst (b : Nat → Nat) (frm dst v : Nat) (h : frm ≠ dst) :
    moveBalance b frm dst v dst = b dst + v := by
  unfold moveBalance
  simp [Function.update_same, Function.update_noteq (Ne.symm h)]

theorem moveBalance_other (b : Nat → Nat) (frm dst v a : Nat)
    (h1 : a ≠ frm) (h2 : a ≠ dst) : moveBalance b frm dst v a = b a := by
  unfold moveBalance
  simp [Function.update_noteq h1, Function.update_noteq h2]

theorem moveBalance_zero (b : Nat → Nat) (frm dst : Nat) :
    moveBalance b frm dst 0 = b := by
  unfold moveBalance
  simp [Function.update_eq_self]

theorem moveBalance_sum (b : Nat → Nat) (frm dst v : Nat) (S : Finset Nat)
    (hf : frm ∈ S) (hd : dst ∈ S) (hv : v ≤ b frm) :
    Finset.sum S (moveBalance b frm dst v) = Finset.sum S b := by
  by_cases hfd : frm = dst
  · subst hfd
    rw [moveBalance_self b frm v hv]
  · unfold moveBalance
    have hf2 : frm ∈ S.erase dst := Finset.mem_erase.mpr ⟨hfd, hf⟩
    rw [Finset.sum_update_of_mem hd, ← Finset.erase_eq]
    rw [Finset.sum_update_of_mem hf2, ← Finset.erase_eq]
    rw [Function.update_noteq (Ne.symm hfd)]
    have hgoal : Finset.sum S b = ∑ x ∈ S, b x := rfl
    have hsum : (∑ x ∈ S, b x) = b dst + ∑ x ∈ S.erase dst, b x :=
      (Finset.add_sum_erase S b hd).symm
    have hsum2 : (∑ x ∈ S.erase dst, b x)
        = b frm + ∑ x ∈ (S.erase dst).erase frm, b x :=
      (Finset.add_sum_erase _ b hf2).symm
    rw [hgoal, hsum, hsum2]
    omega

/-! Claim theorems. -/

/-- C2: every ledger operation that returns an error is a strict no-op —
every balance, every allowance and the total supply are unchanged from before
the call, and no notifications are produced. -/
theorem atomicity_on_failure (s : PSP22Data) (op : Op) (e : PSP22Error)
    (h : stepOp s op = .error e) :
    applyOp s op = s ∧ eventsOfOp s op = [] := by
  constructor <;> simp [applyOp, eventsOfOp, h]

theorem atomicity_on_failure_witness :
    applyOp PSP22Data.empty (.burn 1 5) = PSP22Data.empty ∧
    eventsOfOp PSP22Data.empty (.burn 1 5) = [] :=
  atomicity_on_failure PSP22Data.empty (.burn 1 5) .InsufficientBalance rfl

/-- C3: mint(dst, v) increases the balance of dst and the total supply by v
using checked u128 addition, fails with Overflow (state unchanged) when
either addition leaves the u128 range, and on success returns exactly one
Transfer notification from nothing, suppressed when v = 0. -/
theorem mint_correct (s : PSP22Data) (dst v : Nat) :
    (s.balance_of dst + v ≤ U128_MAX ∧ s.total_supply + v ≤ U128_MAX →
      ∃ s2, s.mint dst v
          = .ok (s2, if v = 0 then [] else [.Transfer none (some dst) v]) ∧
        s2.balance_of dst = s.balance_of dst + v ∧
        s2.total_supply = s.total_supply + v ∧
        (∀ a, a ≠ dst → s2.balance_of a = s.balance_of a) ∧
        (∀ o p, s2.allowance o p = s.allowance o p)) ∧
    (¬(s.balance_of dst + v ≤ U128_MAX ∧ s.total_supply + v ≤ U128_MAX) →
      s.mint dst v = .error .Overflow ∧ applyOp s (.mint dst v) = s) := by
  constructor
  · intro hc
    have hc2 : s.balances dst + v ≤ U128_MAX ∧ s.total_supply + v ≤ U128_MAX := hc
    refine ⟨{ s with
                balances := Function.update s.balances dst (s.balances dst + v)
                total_supply := s.total_supply + v }, ?_, ?_, rfl, ?_, fun o p => rfl⟩
    · rw [mint_eq, if_pos hc2]
    · simp [PSP22Data.balance_of, Function.update_same]
    · intro a ha
      simp [PSP22Data.balance_of, Function.update_noteq ha]
  · intro hc
    have hc2 : ¬(s.balances dst + v ≤ U128_MAX ∧ s.total_supply + v ≤ U128_MAX) := hc
    have he : s.mint dst v = .error .Overflow := by rw [mint_eq, if_neg hc2]
    exact ⟨he, by simp [applyOp, stepOp, he]⟩

theorem mint_correct_witness :
    ∃ s2, PSP22Data.empty.mint 5 7
        = .ok (s2, if 7 = 0 then [] else [.Transfer none (some 5) 7]) ∧
      s2.balance_of 5 = PSP22Data.empty.balance_of 5 + 7 ∧
      s2.total_supply = PSP22Data.empty.total_supply + 7 ∧
      (∀ a, a ≠ 5 → s2.balance_of a = PSP22Data.empty.balance_of a) ∧
      (∀ o p, s2.allowance o p = PSP22Data.empty.allowance o p) :=
  (mint_correct PSP22Data.empty 5 7).1 (by constructor <;> decide)

/-- C4: burn(frm, v) fails with InsufficientBalance (state unchanged) when
the balance of frm is below v, and otherwise decreases both the balance of
frm and the total supply by v. -/
theorem burn_correct (s : PSP22Data) (frm v : Nat) :
    (s.balance_of frm < v →
      s.burn frm v = .error .InsufficientBalance ∧ applyOp s (.burn frm v) = s) ∧
    (v ≤ s.balance_of frm →
      ∃ s2 ev, s.burn frm v = .ok (s2, ev) ∧
        s2.balance_of frm = s.balance_of frm - v ∧
        s2.total_supply = s.total_supply - v) := by
  constructor
  · intro h
    have h2 : s.balances frm < v := h
    have he : s.burn frm v = .error .InsufficientBalance := by
      unfold PSP22Data.burn
      rw [if_pos h2]
    exact ⟨he, by simp [applyOp, stepOp, he]⟩
  · intro h
    have hn : ¬ s.balances frm < v := Nat.not_lt.mpr h
    refine ⟨{ s with
                balances := Function.update s.balances frm (s.balances frm - v)
                total_supply := s.total_supply - v },
            if v = 0 then [] else [.Transfer (some frm) none v], ?_, ?_, rfl⟩
    · unfold PSP22Data.burn
      rw [if_neg hn]
    · simp [PSP22Data.balance_of, Function.update_same]

theorem burn_correct_witness :
    (PSP22Data.empty.balance_of 1 < 5 →
      PSP22Data.empty.burn 1 5 = .error .InsufficientBalance ∧
      applyOp PSP22Data.empty (.burn 1 5) = PSP22Data.empty) ∧
    (5 ≤ PSP22Data.empty.balance_of 1 →
      ∃ s2 ev, PSP22Data.empty.burn 1 5 = .ok (s2, ev) ∧
        s2.balance_of 1 = PSP22Data.empty.balance_of 1 - 5 ∧
        s2.total_supply = PSP22Data.empty.total_supply - 5) :=
  burn_correct PSP22Data.empty 1 5

/-- C5: a successful transfer with distinct endpoints debits the caller by v,
credits the destination by v and leaves the total supply unchanged; a
self-transfer leaves the caller's balance unchanged but still fails with
InsufficientBalance unless the caller's balance covers v. -/
theorem transfer_conservation (s : PSP22Data) (c t v : Nat) :
    (c ≠ t → ∀ s2 ev, s.transfer c t v = .ok (s2, ev) →
      v ≤ s.balance_of c ∧
      s2.balance_of c = s.balance_of c - v ∧
      s2.balance_of t = s.balance_of t + v ∧
      s2.total_supply = s.total_supply) ∧
    (c = t →
      (s.balance_of c < v → s.transfer c t v = .error .InsufficientBalance) ∧
      (∀ s2 ev, s.transfer c t v = .ok (s2, ev) →
        v ≤ s.balance_of c ∧ s2.balance_of c = s.balance_of c)) := by
  constructor
  · intro hct s2 ev heq
    unfold PSP22Data.transfer at heq
    by_cases h : s.balances c < v
    · rw [if_pos h] at heq
      cases heq
    · rw [if_neg h] at heq
      injection heq with hpair
      injection hpair with hs hev
      subst hs
      refine ⟨Nat.not_lt.mp h, ?_, ?_, rfl⟩
      · simp [PSP22Data.balance_of, moveBalance_src s.balances c t v hct]
      · simp [PSP22Data.balance_of, moveBalance_dst s.balances c t v hct]
  · intro hct
    subst hct
    constructor
    · intro h
      have h2 : s.balances c < v := h
      unfold PSP22Data.transfer
      rw [if_pos h2]
    · intro s2 ev heq
      unfold PSP22Data.transfer at heq
      by_cases h : s.balances c < v
      · rw [if_pos h] at heq
        cases heq
      · rw [if_neg h] at heq
        injection heq with hpair
        injection hpair with hs hev
        subst hs
        refine ⟨Nat.not_lt.mp h, ?_⟩
        simp [PSP22Data.balance_of, moveBalance_self s.balances c v (Nat.not_lt.mp h)]

theorem transfer_conservation_witness :
    (1 ≠ 1 → ∀ s2 ev, mintedState.transfer 1 1 4 = .ok (s2, ev) →
      4 ≤ mintedState.balance_of 1 ∧
      s2.balance_of 1 = mintedState.balance_of 1 - 4 ∧
      s2.balance_of 1 = mintedState.balance_of 1 + 4 ∧
      s2.total_supply = mintedState.total_supply) ∧
    (1 = 1 →
      (mintedState.balance_of 1 < 4 →
        mintedState.transfer 1 1 4 = .error .InsufficientBalance) ∧
      (∀ s2 ev, mintedState.transfer 1 1 4 = .ok (s2, ev) →
        4 ≤ mintedState.balance_of 1 ∧ s2.balance_of 1 = mintedState.balance_of 1)) :=
  transfer_conservation mintedState 1 1 4

/-- C6: a successful transfer_from decreases the allowance (frm, caller) by v
and returns exactly the Approval carrying the new allowance followed by the
Transfer; it fails with InsufficientAllowance (state unchanged) whenever the
allowance is below v, uniformly — also when frm equals the caller. -/
theorem transfer_from_correct (s : PSP22Data) (c frm dst v : Nat) :
    (∀ s2 ev, s.transfer_from c frm dst v = .ok (s2, ev) →
      v ≤ s.allowance frm c ∧
      s2.allowance frm c = s.allowance frm c - v ∧
      ev = [.Approval frm c (s.allowance frm c - v),
            .Transfer (some frm) (some dst) v]) ∧
    (s.allowance frm c < v →
      s.transfer_from c frm dst v = .error .InsufficientAllowance ∧
      applyOp s (.transfer_from c frm dst v) = s) := by
  constructor
  · intro s2 ev heq
    unfold PSP22Data.transfer_from at heq
    by_cases h1 : s.allowances frm c < v
    · rw [if_pos h1] at heq
      cases heq
    · rw [if_neg h1] at heq
      by_cases h2 : s.balances frm < v
      · rw [if_pos h2] at heq
        cases heq
      · rw [if_neg h2] at heq
        injection heq with hpair
        injection hpair with hs hev
        subst hs
        refine ⟨Nat.not_lt.mp h1, ?_, hev.symm⟩
        simp [PSP22Data.allowance, setAllowance_same]
  · intro h
    have h2 : s.allowances frm c < v := h
    have he : s.transfer_from c frm dst v = .error .InsufficientAllowance := by
      unfold PSP22Data.transfer_from
      rw [if_pos h2]
    exact ⟨he, by simp [applyOp, stepOp, he]⟩

theorem transfer_from_correct_witness :
    (∀ s2 ev, PSP22Data.empty.transfer_from 1 1 2 5 = .ok (s2, ev) →
      5 ≤ PSP22Data.empty.allowance 1 1 ∧
      s2.allowance 1 1 = PSP22Data.empty.allowance 1 1 - 5 ∧
      ev = [.Approval 1 1 (PSP22Data.empty.allowance 1 1 - 5),
            .Transfer (some 1) (some 2) 5]) ∧
    (PSP22Data.empty.allowance 1 1 < 5 →
      PSP22Data.empty.transfer_from 1 1 2 5 = .error .InsufficientAllowance ∧
      applyOp PSP22Data.empty (.transfer_from 1 1 2 5) = PSP22Data.empty) :=
  transfer_from_correct PSP22Data.empty 1 1 2 5

/-- C7: a zero-value transfer always succeeds, changes no balances (nor the
supply or any allowance) and returns the empty notification sequence. -/
theorem transfer_zero_noop (s : PSP22Data) (c t : Nat) :
    ∃ s2, s.transfer c t 0 = .ok (s2, []) ∧
      (∀ a, s2.balance_of a = s.balance_of a) ∧
      s2.total_supply = s.total_supply ∧
      (∀ o p, s2.allowance o p = s.allowance o p) := by
  refine ⟨{ s with balances := moveBalance s.balances c t 0 },
          ?_, ?_, rfl, fun o p => rfl⟩
  · unfold PSP22Data.transfer
    rw [if_neg (Nat.not_lt.mpr (Nat.zero_le _))]
    simp
  · intro a
    simp [PSP22Data.balance_of, moveBalance_zero]

/-- C8, counterexample: starting from allowance x at the u128 maximum, the
pair d1 = 1, d2 = 0 satisfies d2 ≤ x + d1, yet increase_allowance fails with
Overflow, so the two sequential calls do not both succeed as claimed. -/
theorem allowance_race_freedom_cex :
    maxAllowanceState.allowance 0 1 = U128_MAX ∧
    0 ≤ U128_MAX + 1 ∧
    maxAllowanceState.increase_allowance 0 1 1 = .error .Overflow :=
  ⟨rfl, Nat.zero_le _, rfl⟩

/-- C8 (amended): starting from allowance x, sequential
increase_allowance(d1) then decrease_allowance(d2) with d2 ≤ x + d1 both
succeed and leave the allowance at x + d1 - d2 provided x + d1 does not
exceed the u128 maximum; decrease_allowance with d2 above the current
allowance fails with InsufficientAllowance and leaves the allowance (and all
state) unchanged. -/
theorem allowance_race_freedom (s : PSP22Data) (c p x d1 d2 : Nat) :
    (s.allowance c p = x → x + d1 ≤ U128_MAX → d2 ≤ x + d1 →
      ∃ s1 s2,
        s.increase_allowance c p d1 = .ok (s1, [.Approval c p (x + d1)]) ∧
        s1.decrease_allowance c p d2 = .ok (s2, [.Approval c p (x + d1 - d2)]) ∧
        s2.allowance c p = x + d1 - d2) ∧
    (s.allowance c p < d2 →
      s.decrease_allowance c p d2 = .error .InsufficientAllowance ∧
      applyOp s (.decrease_allowance c p d2) = s) := by
  constructor
  · intro hx hmax hd2
    have hx2 : s.allowances c p = x := hx
    have hinc : s.increase_allowance c p d1
        = .ok ({ s with allowances := setAllowance s.allowances c p (x + d1) },
               [.Approval c p (x + d1)]) := by
      rw [increase_allowance_eq, hx2, if_pos hmax]
    have hs1 : ({ s with allowances := setAllowance s.allowances c p (x + d1) }
        : PSP22Data).allowances c p = x + d1 := setAllowance_same _ _ _ _
    have hdec := decrease_allowance_ok
      { s with allowances := setAllowance s.allowances c p (x + d1) } c p d2 (x + d1) hs1 hd2
    refine ⟨_, _, hinc, hdec, ?_⟩
    simp [PSP22Data.allowance, setAllowance_same]
  · intro h
    have h2 : s.allowances c p < d2 := h
    have he : s.decrease_allowance c p d2 = .error .InsufficientAllowance := by
      unfold PSP22Data.decrease_allowance
      rw [if_pos h2]
    exact ⟨he, by simp [applyOp, stepOp, he]⟩

theorem allowance_race_freedom_witness :
    ∃ s1 s2,
      PSP22Data.empty.increase_allowance 0 1 5 = .ok (s1, [.Approval 0 1 (0 + 5)]) ∧
      s1.decrease_allowance 0 1 3 = .ok (s2, [.Approval 0 1 (0 + 5 - 3)]) ∧
      s2.allowance 0 1 = 0 + 5 - 3 :=
  (allowance_race_freedom PSP22Data.empty 0 1 0 5 3).1 rfl (by decide) (by decide)

/-- C9: any caller other than the bond account fixed at construction is
rejected by the public mint and burn messages with Custom("Not Permission"),
leaving the token unchanged; the bond caller passes the access check and the
ledger operation's outcome is surfaced unchanged. -/
theorem only_bond_gate (t : Token) (caller dst frm v : Nat) :
    (caller ≠ t.bond →
      t.mint caller dst v = .error (.Custom "Not Permission") ∧
      t.burn caller frm v = .error (.Custom "Not Permission") ∧
      t.applyCall (t.mint caller dst v) = t ∧
      t.applyCall (t.burn caller frm v) = t) ∧
    (caller = t.bond →
      t.only_bond caller = .ok () ∧
      (∀ e, t.data.mint dst v = .error e → t.mint caller dst v = .error e) ∧
      (∀ d ev, t.data.mint dst v = .ok (d, ev) →
        t.mint caller dst v = .ok ({ t with data := d }, [])) ∧
      (∀ e, t.data.burn frm v = .error e → t.burn caller frm v = .error e) ∧
      (∀ d ev, t.data.burn frm v = .ok (d, ev) →
        t.burn caller frm v = .ok ({ t with data := d }, []))) := by
  constructor
  · intro h
    have hob : t.only_bond caller = .error (.Custom "Not Permission") := by
      unfold Token.only_bond
      rw [if_pos h]
    refine ⟨?_, ?_, ?_, ?_⟩ <;> simp [Token.mint, Token.burn, Token.applyCall, hob]
  · intro h
    have hob : t.only_bond caller = .ok () := by
      unfold Token.only_bond
      rw [if_neg (by simp [h])]
    refine ⟨hob, ?_, ?_, ?_, ?_⟩
    · intro e he
      simp [Token.mint, hob, he]
    · intro d ev he
      simp [Token.mint, hob, he]
    · intro e he
      simp [Token.burn, hob, he]
    · intro d ev he
      simp [Token.burn, hob, he]

theorem only_bond_gate_witness :
    (Token.new none none 7).mint 3 5 10 = .error (.Custom "Not Permission") ∧
    (Token.new none none 7).burn 3 5 10 = .error (.Custom "Not Permission") ∧
    (Token.new none none 7).applyCall ((Token.new none none 7).mint 3 5 10)
      = Token.new none none 7 ∧
    (Token.new none none 7).applyCall ((Token.new none none 7).burn 3 5 10)
      = Token.new none none 7 :=
  (only_bond_gate (Token.new none none 7) 3 5 5 10).1 (by decide)

/-- C10: successful public mint and burn calls discard the core's Transfer
notifications and emit nothing, while successful transfer, transfer_from,
approve, increase_allowance and decrease_allowance calls emit, via
emit_events, every notification returned by the core in order. -/
theorem event_emission_policy (t : Token) (caller dst frm sp v : Nat) (dat : List Nat) :
    (∀ t2 ev, t.mint caller dst v = .ok (t2, ev) → ev = []) ∧
    (∀ t2 ev, t.burn caller frm v = .ok (t2, ev) → ev = []) ∧
    (∀ d es, t.data.transfer caller dst v = .ok (d, es) →
      t.transfer caller dst v dat = .ok ({ t with data := d }, Token.emit_events es)) ∧
    (∀ d es, t.data.transfer_from caller frm dst v = .ok (d, es) →
      t.transfer_from caller frm dst v dat
        = .ok ({ t with data := d }, Token.emit_events es)) ∧
    (∀ d es, t.data.approve caller sp v = .ok (d, es) →
      t.approve caller sp v = .ok ({ t with data := d }, Token.emit_events es)) ∧
    (∀ d es, t.data.increase_allowance caller sp v = .ok (d, es) →
      t.increase_allowance caller sp v
        = .ok ({ t with data := d }, Token.emit_events es)) ∧
    (∀ d es, t.data.decrease_allowance caller sp v = .ok (d, es) →
      t.decrease_allowance caller sp v
        = .ok ({ t with data := d }, Token.emit_events es)) := by
  refine ⟨?_, ?_, ?_, ?_, ?_, ?_, ?_⟩
  · intro t2 ev he
    unfold Token.mint at he
    cases hob : t.only_bond caller with
    | error e => rw [hob] at he; cases he
    | ok u =>
      rw [hob] at he
      cases hd : t.data.mint dst v with
      | error e => rw [hd] at he; cases he
      | ok p =>
        rw [hd] at he
        injection he with hpair
        exact (congrArg Prod.snd hpair).symm
  · intro t2 ev he
    unfold Token.burn at he
    cases hob : t.only_bond caller with
    | error e => rw [hob] at he; cases he
    | ok u =>
      rw [hob] at he
      cases hd : t.data.burn frm v with
      | error e => rw [hd] at he; cases he
      | ok p =>
        rw [hd] at he
        injection he with hpair
        exact (congrArg Prod.snd hpair).symm
  · intro d es he
    simp [Token.transfer, he]
  · intro d es he
    simp [Token.transfer_from, he]
  · intro d es he
    simp [Token.approve, he]
  · intro d es he
    simp [Token.increase_allowance, he]
  · intro d es he
    simp [Token.decrease_allowance, he]

theorem event_emission_policy_witness :
    (Token.new none none 7).approve 1 2 9
      = .ok ({ Token.new none none 7 with
                 data := { PSP22Data.empty with
                             allowances := setAllowance PSP22Data.empty.allowances 1 2 9 } },
             Token.emit_events [.Approval 1 2 9]) :=
  (event_emission_policy (Token.new none none 7) 1 3 4 2 9 []).2.2.2.2.1
    { PSP22Data.empty with allowances := setAllowance PSP22Data.empty.allowances 1 2 9 }
    [.Approval 1 2 9] rfl

/-! Conservation: every operation preserves the supply/balances invariant. -/

theorem update_sum_eq (b : Nat → Nat) (S : Finset Nat) (a n : Nat) (ha : a ∈ S) :
    Finset.sum S (Function.update b a n) = n + ∑ x ∈ S.erase a, b x := by
  rw [Finset.sum_update_of_mem ha, ← Finset.erase_eq]

theorem sum_split (b : Nat → Nat) (S : Finset Nat) (a : Nat) (ha : a ∈ S) :
    Finset.sum S b = b a + ∑ x ∈ S.erase a, b x :=
  (Finset.add_sum_erase S b ha).symm

theorem applyOp_preserves_inv (s : PSP22Data) (op : Op) (S : Finset Nat)
    (hS : opAccounts op ⊆ S) (h : BalancesInv s S) :
    BalancesInv (applyOp s op) S := by
  obtain ⟨hsum, hzero⟩ := h
  cases op with
  | mint dst v =>
    have hdst : dst ∈ S := hS (by simp [opAccounts])
    by_cases hc : s.balances dst + v ≤ U128_MAX ∧ s.total_supply + v ≤ U128_MAX
    · have happ : applyOp s (.mint dst v) = { s with
          balances := Function.update s.balances dst (s.balances dst + v)
          total_supply := s.total_supply + v } := by
        simp [applyOp, stepOp, mint_eq, hc]
      rw [happ]
      constructor
      · show s.total_supply + v
            = Finset.sum S (Function.update s.balances dst (s.balances dst + v))
        rw [update_sum_eq s.balances S dst _ hdst]
        rw [sum_split s.balances S dst hdst] at hsum
        omega
      · intro a ha
        have hne : a ≠ dst := fun he => ha (he ▸ hdst)
        show Function.update s.balances dst (s.balances dst + v) a = 0
        rw [Function.update_noteq hne]
        exact hzero a ha
    · have happ : applyOp s (.mint dst v) = s := by
        simp [applyOp, stepOp, mint_eq, hc]
      rw [happ]
      exact ⟨hsum, hzero⟩
  | burn frm v =>
    have hfrm : frm ∈ S := hS (by simp [opAccounts])
    by_cases hc : s.balances frm < v
    · have happ : applyOp s (.burn frm v) = s := by
        simp [applyOp, stepOp, PSP22Data.burn, hc]
      rw [happ]
      exact ⟨hsum, hzero⟩
    · have happ : applyOp s (.burn frm v) = { s with
          balances := Function.update s.balances frm (s.balances frm - v)
          total_supply := s.total_supply - v } := by
        simp [applyOp, stepOp, PSP22Data.burn, hc]
      rw [happ]
      constructor
      · show s.total_supply - v
            = Finset.sum S (Function.update s.balances frm (s.balances frm - v))
        rw [update_sum_eq s.balances S frm _ hfrm]
        rw [sum_split s.balances S frm hfrm] at hsum
        omega
      · intro a ha
        have hne : a ≠ frm := fun he => ha (he ▸ hfrm)
        show Function.update s.balances frm (s.balances frm - v) a = 0
        rw [Function.update_noteq hne]
        exact hzero a ha
  | transfer c dst v =>
    have hc2 : c ∈ S := hS (by simp [opAccounts])
    have hd2 : dst ∈ S := hS (by simp [opAccounts])
    by_cases hc : s.balances c < v
    · have happ : applyOp s (.transfer c dst v) = s := by
        simp [applyOp, stepOp, PSP22Data.transfer, hc]
      rw [happ]
      exact ⟨hsum, hzero⟩
    · have happ : applyOp s (.transfer c dst v)
          = { s with balances := moveBalance s.balances c dst v } := by
        simp [applyOp, stepOp, PSP22Data.transfer, hc]
      rw [happ]
      constructor
      · show s.total_supply = Finset.sum S (moveBalance s.balances c dst v)
        rw [moveBalance_sum s.balances c dst v S hc2 hd2 (Nat.not_lt.mp hc)]
        exact hsum
      · intro a ha
        have hnc : a ≠ c := fun he => ha (he ▸ hc2)
        have hnd : a ≠ dst := fun he => ha (he ▸ hd2)
        show moveBalance s.balances c dst v a = 0
        rw [moveBalance_other s.balances c dst v a hnc hnd]
        exact hzero a ha
  | transfer_from c frm dst v =>
    have hf2 : frm ∈ S := hS (by simp [opAccounts])
    have hd2 : dst ∈ S := hS (by simp [opAccounts])
    by_cases h1 : s.allowances frm c < v
    · have happ : applyOp s (.transfer_from c frm dst v) = s := by
        simp [applyOp, stepOp, PSP22Data.transfer_from, h1]
      rw [happ]
      exact ⟨hsum, hzero⟩
    · by_cases h2 : s.balances frm < v
      · have happ : applyOp s (.transfer_from c frm dst v) = s := by
          simp [applyOp, stepOp, PSP22Data.transfer_from, h1, h2]
        rw [happ]
        exact ⟨hsum, hzero⟩
      · have happ : applyOp s (.transfer_from c frm dst v) = { s with
            balances := moveBalance s.balances frm dst v
            allowances := setAllowance s.allowances frm c (s.allowances frm c - v) } := by
          simp [applyOp, stepOp, PSP22Data.transfer_from, h1, h2]
        rw [happ]
        constructor
        · show s.total_supply = Finset.sum S (moveBalance s.balances frm dst v)
          rw [moveBalance_sum s.balances frm dst v S hf2 hd2 (Nat.not_lt.mp h2)]
          exact hsum
        · intro a ha
          have hnf : a ≠ frm := fun he => ha (he ▸ hf2)
          have hnd : a ≠ dst := fun he => ha (he ▸ hd2)
          show moveBalance s.balances frm dst v a = 0
          rw [moveBalance_other s.balances frm dst v a hnf hnd]
          exact hzero a ha
  | approve c p v =>
    have happ : applyOp s (.approve c p v)
        = { s with allowances := setAllowance s.allowances c p v } := by
      simp [applyOp, stepOp, PSP22Data.approve]
    rw [happ]
    exact ⟨hsum, hzero⟩
  | increase_allowance c p v =>
    by_cases hc : s.allowances c p + v ≤ U128_MAX
    · have happ : applyOp s (.increase_allowance c p v) = { s with
          allowances := setAllowance s.allowances c p (s.allowances c p + v) } := by
        simp [applyOp, stepOp, increase_allowance_eq, hc]
      rw [happ]
      exact ⟨hsum, hzero⟩
    · have happ : applyOp s (.increase_allowance c p v) = s := by
        simp [applyOp, stepOp, increase_allowance_eq, hc]
      rw [happ]
      exact ⟨hsum, hzero⟩
  | decrease_allowance c p v =>
    by_cases hc : s.allowances c p < v
    · have happ : applyOp s (.decrease_allowance c p v) = s := by
        simp [applyOp, stepOp, PSP22Data.decrease_allowance, hc]
      rw [happ]
      exact ⟨hsum, hzero⟩
    · have happ : applyOp s (.decrease_allowance c p v) = { s with
          allowances := setAllowance s.allowances c p (s.allowances c p - v) } := by
        simp [applyOp, stepOp, PSP22Data.decrease_allowance, hc]
      rw [happ]
      exact ⟨hsum, hzero⟩

theorem runOpsFrom_preserves_inv (ops : List Op) (s : PSP22Data) (S : Finset Nat)
    (h : BalancesInv s S) (hops : ∀ op ∈ ops, opAccounts op ⊆ S) :
    BalancesInv (runOpsFrom s ops) S := by
  induction ops generalizing s with
  | nil => exact h
  | cons op rest ih =>
    show BalancesInv (runOpsFrom (applyOp s op) rest) S
    exact ih (applyOp s op)
      (applyOp_preserves_inv s op S (hops op (List.mem_cons_self op rest)) h)
      (fun o ho => hops o (List.mem_cons_of_mem op ho))

theorem opAccounts_subset_appeared (ops : List Op) (op : Op) (h : op ∈ ops) :
    opAccounts op ⊆ appearedAccounts ops := by
  induction ops with
  | nil => cases h
  | cons o rest ih =>
    show opAccounts op ⊆ opAccounts o ∪ appearedAccounts rest
    rcases List.mem_cons.mp h with he | hm
    · subst he
      exact Finset.subset_union_left
    · exact (ih hm).trans Finset.subset_union_right

theorem empty_inv (S : Finset Nat) : BalancesInv PSP22Data.empty S := by
  constructor
  · show (0 : Nat) = Finset.sum S (fun _ => 0)
    rw [Finset.sum_const_zero]
  · intro a _
    rfl

/-- C1: conservation — after any sequence of ledger operations from the empty
ledger (every observable point between operations is the state after the
sequence of operations run so far, so this covers all such points), the total
supply equals the sum of the balances of all accounts that ever appeared. -/
theorem conservation (ops : List Op) :
    (runOps ops).total_supply
      = Finset.sum (appearedAccounts ops) (runOps ops).balance_of :=
  (runOpsFrom_preserves_inv ops PSP22Data.empty (appearedAccounts ops)
    (empty_inv _) (fun op ho => opAccounts_subset_appeared ops op ho)).1
